import Mathlib

/-!
Verification of the digris-edi-zmq-bridge merge queue, paced transmitter,
ETI reconstructor and ZMQ phase gate.

The definitions below are shallow embeddings of the functions in
`src/EDISender.cpp`, `src/receiver.cpp`, `src/zmq/edi2zmq.cpp` and the
stats reply of `src/edi2edi.cpp`.  Machine integers are modelled as `Nat`
(with explicit truncation where the C++ code truncates), clock readings are
passed in explicitly as `Int` milliseconds, and the logging / UDP
live-stats side effects are omitted (they do not touch the modelled
state).  The receiver-side counter `r->num_late` incremented by
`push_tagpacket` belongs to the `Receiver` object and is not part of the
sender state modelled here.
-/

namespace EdiBridge

/-- `EdiDecoder::frame_timestamp_t`.  Modelled from the spec: the type lives
in the EDI decoder library which is not under `src/`; per the spec it is
`(seconds, utco, tsta)`, valid when `seconds != 0`, and two timestamps
compare by `(seconds, tsta)` lexicographically. -/
structure Timestamp where
  seconds : Nat
  utco : Nat
  tsta : Nat
deriving DecidableEq, Repr

/-- Modelled from the spec: a timestamp is valid when `seconds != 0`
(`frame_timestamp_t::is_valid`, library code not under `src/`). -/
def Timestamp.is_valid (t : Timestamp) : Prop := t.seconds ≠ 0

instance (t : Timestamp) : Decidable t.is_valid :=
  inferInstanceAs (Decidable (t.seconds ≠ 0))

/-- Modelled from the spec: lexicographic order on `(seconds, tsta)`
(`frame_timestamp_t::operator<`, library code not under `src/`). -/
def tsLt (a b : Timestamp) : Prop :=
  a.seconds < b.seconds ∨ (a.seconds = b.seconds ∧ a.tsta < b.tsta)

instance (a b : Timestamp) : Decidable (tsLt a b) :=
  inferInstanceAs (Decidable (a.seconds < b.seconds ∨ (a.seconds = b.seconds ∧ a.tsta < b.tsta)))

/-- Modelled from the spec: timestamp equality compares `(seconds, tsta)`
(`frame_timestamp_t::operator==`, library code not under `src/`). -/
def tsEq (a b : Timestamp) : Prop :=
  a.seconds = b.seconds ∧ a.tsta = b.tsta

instance (a b : Timestamp) : Decidable (tsEq a b) :=
  inferInstanceAs (Decidable (a.seconds = b.seconds ∧ a.tsta = b.tsta))

/-- `a <= b` on timestamps, used for the `_most_recent_timestamp >= tp.timestamp`
guard of `push_tagpacket` (modelled from the spec, library code not under `src/`). -/
def tsLe (a b : Timestamp) : Prop := tsLt a b ∨ tsEq a b

instance (a b : Timestamp) : Decidable (tsLe a b) :=
  inferInstanceAs (Decidable (tsLt a b ∨ tsEq a b))

/-- Modelled from the spec: `frame_timestamp_t::to_system_clock` (library
code not under `src/`): wall-clock seconds are `seconds + utco` minus the
POSIX timestamp of the EDI epoch (2000-01-01), and the upper 24 bits of
`tsta` count 1/16384 fractions of a second.  Expressed in milliseconds. -/
def toWalltimeMs (t : Timestamp) : Int :=
  ((t.seconds : Int) + (t.utco : Int) - 946684800) * 1000
    + ((t.tsta : Int) >>> 8) * 1000 / 16384

/-- `tagpacket_t` from `src/receiver.h` as used by the merge queue: the
`seq` override fields and `received_at` instant are not used by any of the
modelled control flow and are omitted. -/
structure tagpacket_t where
  hostnames : String
  dlfc : Nat
  afpacket : List Nat
  timestamp : Timestamp
deriving DecidableEq, Repr

/-- Strict timestamp order between queue entries. -/
def tpLt (a b : tagpacket_t) : Prop := tsLt a.timestamp b.timestamp

instance (a b : tagpacket_t) : Decidable (tpLt a b) :=
  inferInstanceAs (Decidable (tsLt a.timestamp b.timestamp))

/-- `MAX_PENDING_TAGPACKETS` from `src/EDISender.h`. -/
def MAX_PENDING_TAGPACKETS : Nat := 1000

/-- `LATE_SCORE_INCREASE` from `src/EDISender.h`. -/
def LATE_SCORE_INCREASE : Nat := 10

/-- `LATE_SCORE_MAX` from `src/EDISender.h`. -/
def LATE_SCORE_MAX : Nat := 200

/-- `LATE_SCORE_THRESHOLD` from `src/EDISender.h`. -/
def LATE_SCORE_THRESHOLD : Nat := 100

/-- The mutable state of `EDISender` (`src/EDISender.h`) that the modelled
member functions read and write.  `inhibitUntil` is `_output_inhibit_until`
as milliseconds on the steady clock; counters are the atomic counters. -/
structure SenderState where
  pending : List tagpacket_t
  mostRecent : Timestamp
  late_score : Nat
  inhibitUntil : Int
  numDropped : Nat
  numQueueOverruns : Nat
  numDlfcDiscontinuities : Nat
  numFrames : Nat
  showBackoffEnded : Bool
deriving DecidableEq, Repr

/-- Initial `EDISender` state: empty queue, default-constructed (invalid)
`_most_recent_timestamp`, zero counters, `_output_inhibit_until` at the
construction instant (time zero of the modelled steady clock). -/
def initSender : SenderState :=
  { pending := []
    mostRecent := ⟨0, 0, 0⟩
    late_score := 0
    inhibitUntil := 0
    numDropped := 0
    numQueueOverruns := 0
    numDlfcDiscontinuities := 0
    numFrames := 0
    showBackoffEnded := false }

/-- The `late` flag computed by `EDISender::push_tagpacket`
(`src/EDISender.cpp` lines 78-102): with a configured delay, a packet with
no seconds timestamp is late, otherwise it is late when its release time
`t_frame + delay` lies before the current wall-clock time; with the delay
disabled the flag stays false. -/
def lateFlag (delay : Option Int) (tNow : Int) (ts : Timestamp) : Bool :=
  match delay with
  | none => false
  | some d => if ts.seconds = 0 then true else decide (toWalltimeMs ts + d < tNow)

/-- The insertion loop of `EDISender::push_tagpacket` (`src/EDISender.cpp`
lines 118-147): walk the pending list; insert before the first entry with a
strictly larger timestamp; on an entry with equal timestamp, either only
warn (different DLFC) or append the new source label to the existing
entry's `hostnames` (same DLFC); in both equal-timestamp cases the incoming
packet itself is not inserted; append at the end otherwise. -/
def insertTagpacket (tp : tagpacket_t) : List tagpacket_t → List tagpacket_t
  | [] => [tp]
  | it :: rest =>
    if tsLt tp.timestamp it.timestamp then
      tp :: it :: rest
    else if tsEq tp.timestamp it.timestamp then
      if tp.dlfc ≠ it.dlfc then
        it :: rest
      else
        { it with hostnames := it.hostnames ++ ";" ++ tp.hostnames } :: rest
    else
      it :: insertTagpacket tp rest

/-- The body of `EDISender::push_tagpacket` before the queue-overrun check
(`src/EDISender.cpp` lines 76-157).  `delay` is `_settings.delay_ms`
(`std::optional<int>` in the implementation files), `tNow` the wall clock
and `tSteady` the steady clock in milliseconds. -/
def push_body (s : SenderState) (tp : tagpacket_t) (delay : Option Int)
    (tNow tSteady : Int) : SenderState :=
  let late := lateFlag delay tNow tp.timestamp
  if s.mostRecent.is_valid ∧ tsLe tp.timestamp s.mostRecent then
    { s with numDropped := s.numDropped + 1 }
  else if late = false then
    if tSteady < s.inhibitUntil then
      { s with numDropped := s.numDropped + 1 }
    else
      { s with
        pending := insertTagpacket tp s.pending
        late_score := if s.late_score > 0 then s.late_score - 1 else s.late_score }
  else
    { s with late_score :=
        if s.late_score + LATE_SCORE_INCREASE > LATE_SCORE_MAX then LATE_SCORE_MAX
        else s.late_score + LATE_SCORE_INCREASE }

/-- The queue-overrun check at the end of `EDISender::push_tagpacket`
(`src/EDISender.cpp` lines 159-163): when the list holds more than
`MAX_PENDING_TAGPACKETS` entries, drop the front (oldest) element and count
an overrun. -/
def overrunTrim (s : SenderState) : SenderState :=
  if s.pending.length > MAX_PENDING_TAGPACKETS then
    { s with
      pending := s.pending.tail
      numQueueOverruns := s.numQueueOverruns + 1 }
  else
    s

/-- `EDISender::push_tagpacket` (`src/EDISender.cpp` lines 61-179): the body
above followed by the queue-overrun check of lines 159-163. -/
def push_tagpacket (s : SenderState) (tp : tagpacket_t) (delay : Option Int)
    (tNow tSteady : Int) : SenderState :=
  overrunTrim (push_body s tp delay tNow tSteady)

/-- `EDISender::inhibit` (`src/EDISender.cpp` lines 191-202): start the
backoff window on the steady clock, clear the pending queue and reset the
late score. -/
def inhibit (s : SenderState) (tSteady backoff : Int) : SenderState :=
  { s with
    inhibitUntil := tSteady + backoff
    pending := []
    late_score := 0 }

/-- `EDISender::is_running_ok` (`src/EDISender.cpp` lines 204-207). -/
def is_running_ok (s : SenderState) : Prop := s.late_score < LATE_SCORE_THRESHOLD

/-- `EDISender::send_tagpacket` (`src/EDISender.cpp` lines 245-305).  With a
configured delay the function sleeps until the release time when the packet
is early (no state change; `tSteady` is read after the sleep), and returns
after counting a drop when the packet is late and `drop_late` is set.  An
output-inhibited packet is counted as dropped.  `outputEnabled` is
`_edi_sender and _edi_conf.enabled()`; the actual EDI write and the
sequence overrides act on the network output object, not on this state. -/
def send_tagpacket (s : SenderState) (tp : tagpacket_t) (delay : Option Int)
    (drop_late : Bool) (outputEnabled : Bool) (tNow tSteady : Int) : SenderState :=
  let lateReturn :=
    match delay with
    | some d => decide (toWalltimeMs tp.timestamp + d < tNow) && drop_late
    | none => false
  if lateReturn then
    { s with numDropped := s.numDropped + 1 }
  else if tSteady < s.inhibitUntil then
    { s with showBackoffEnded := true, numDropped := s.numDropped + 1 }
  else
    let s2 := if s.showBackoffEnded then { s with showBackoffEnded := false } else s
    if outputEnabled then { s2 with numFrames := s2.numFrames + 1 } else s2

/-- The per-iteration locals of `EDISender::process` (`src/EDISender.cpp`
lines 309-310) together with the sender state. -/
structure ProcState where
  sender : SenderState
  prevDlfcValid : Bool
  prevDlfc : Nat
deriving DecidableEq, Repr

/-- Initial process state: `prev_dlfc_valid = false`, `prev_dlfc = 0`. -/
def initProc : ProcState :=
  { sender := initSender, prevDlfcValid := false, prevDlfc := 0 }

/-- Settings relevant to the modelled `EDISender` functions
(`EDISenderSettings` of `src/EDISender.h`; `delay_ms` is optional in the
implementation files). -/
structure ProcCfg where
  delay : Option Int
  drop_late : Bool
  backoff : Int
  outputEnabled : Bool

/-- One iteration of the `EDISender::process` loop (`src/EDISender.cpp`
lines 312-345): pop the front pending packet under the mutex, recording its
timestamp in `_most_recent_timestamp`; skip the rest of the iteration when
nothing was popped or the popped packet has an empty `afpacket`; otherwise
run the DLFC continuity check (on mismatch count a discontinuity, call
`inhibit`, and invalidate `prev_dlfc_valid`) and send the packet.  Returns
the popped packet, when any, with a flag telling whether the DLFC check
fired. -/
def processIteration (cfg : ProcCfg) (ps : ProcState) (tNow tSteady : Int) :
    ProcState × Option (tagpacket_t × Bool) :=
  match ps.sender.pending with
  | [] => (ps, none)
  | tp :: rest =>
    let s0 := { ps.sender with pending := rest, mostRecent := tp.timestamp }
    if tp.afpacket = [] then
      ({ ps with sender := s0 }, some (tp, false))
    else if ps.prevDlfcValid ∧ (ps.prevDlfc + 1) % 5000 ≠ tp.dlfc then
      let s1 := inhibit
        { s0 with numDlfcDiscontinuities := s0.numDlfcDiscontinuities + 1 }
        tSteady cfg.backoff
      let s2 := send_tagpacket s1 tp cfg.delay cfg.drop_late cfg.outputEnabled tNow tSteady
      ({ sender := s2, prevDlfcValid := false, prevDlfc := tp.dlfc }, some (tp, true))
    else
      let s2 := send_tagpacket s0 tp cfg.delay cfg.drop_late cfg.outputEnabled tNow tSteady
      ({ sender := s2, prevDlfcValid := true, prevDlfc := tp.dlfc }, some (tp, false))

/-- An interleaving step on the sender: either the supervisor thread pushes
a packet (with its clock readings) or the transmitter thread runs one
`process` iteration. -/
inductive SenderOp where
  | push (tp : tagpacket_t) (tNow tSteady : Int)
  | proc (tNow tSteady : Int)

/-- Apply one operation; a `proc` step may report a popped packet together
with its DLFC-discontinuity flag. -/
def applyOp (cfg : ProcCfg) (ps : ProcState) :
    SenderOp → ProcState × Option (tagpacket_t × Bool)
  | .push tp tNow tSteady =>
    ({ ps with sender := push_tagpacket ps.sender tp cfg.delay tNow tSteady }, none)
  | .proc tNow tSteady => processIteration cfg ps tNow tSteady

/-- Run a sequence of operations, collecting the popped packets (with their
DLFC-discontinuity flags) in pop order. -/
def runOps (cfg : ProcCfg) (ps : ProcState) :
    List SenderOp → ProcState × List (tagpacket_t × Bool)
  | [] => (ps, [])
  | op :: ops =>
    let step := applyOp cfg ps op
    let rec' := runOps cfg step.1 ops
    (rec'.1, step.2.toList ++ rec'.2)

/-- `EDISender::backoff_milliseconds_remaining` (`src/EDISender.cpp` lines
209-219): when the steady clock has not yet reached `_output_inhibit_until`
the function returns `now - _output_inhibit_until` (a negative number of
milliseconds), otherwise zero. -/
def backoff_milliseconds_remaining (s : SenderState) (now : Int) : Int :=
  if now < s.inhibitUntil then now - s.inhibitUntil else 0

/-- The `in_backoff` field of the `stats` reply built by
`Main::handle_rc_command` (`src/edi2edi.cpp` lines 784-794):
`backoff_remain > 0`. -/
def stats_in_backoff (s : SenderState) (now : Int) : Bool :=
  decide (backoff_milliseconds_remaining s now > 0)

/-- `EdiDecoder::eti_fc_data` as consumed by `Receiver::assemble`
(`src/receiver.cpp`); the structure itself lives in the EDI decoder
library, which is not under `src/`. -/
structure eti_fc_data where
  dlfc : Nat
  fp : Nat
  mid : Nat
  ficf : Bool
  tsta : Nat
deriving DecidableEq, Repr

/-- Modelled from the spec: `eti_fc_data::fct()` (library code not under
`src/`) is derived as `dlfc % 250`. -/
def eti_fc_data.fct (fc : eti_fc_data) : Nat := fc.dlfc % 250

/-- `EdiDecoder::eti_stc_data` (library code not under `src/`): subchannel
identifiers and its MST payload bytes. -/
structure eti_stc_data where
  stream_index : Nat
  scid : Nat
  sad : Nat
  tpl : Nat
  mst : List Nat
deriving DecidableEq, Repr

/-- Modelled from the spec: `eti_stc_data::stl()` (library code not under
`src/`), the subchannel stream length packed into STC, counted in 64-bit
(8-byte) units of the MST payload. -/
def eti_stc_data.stl (s : eti_stc_data) : Nat := s.mst.length / 8

/-- Truncation to one octet, as performed by `push_back` into the
`std::vector<uint8_t>` frame buffer. -/
def u8 (x : Nat) : Nat := x % 256

/-- Modelled from the spec: one bit step of CRC16-CCITT (polynomial
`0x1021`, MSB first); the `crc16` implementation the repository links
against is not under `src/`. -/
def crc16_bit (crc : Nat) : Nat :=
  if crc &&& 0x8000 ≠ 0 then ((crc <<< 1) ^^^ 0x1021) &&& 0xFFFF
  else (crc <<< 1) &&& 0xFFFF

/-- Modelled from the spec: feed one octet into the CRC16-CCITT state. -/
def crc16_byte (crc b : Nat) : Nat :=
  crc16_bit^[8] (crc ^^^ ((b &&& 0xFF) <<< 8))

/-- Modelled from the spec: `crc16(initial, data, len)` over a byte
sequence. -/
def crc16 (initial : Nat) (data : List Nat) : Nat :=
  data.foldl crc16_byte initial

/-- The FL local computed by `Receiver::assemble` (`src/receiver.cpp` lines
234-239): `uint16_t FL = NST + 1 + m_fic.size()`, then `FL +=
subch.mst.size()` per subchannel — note the raw byte counts. -/
def code_FL (nst ficLen : Nat) (subLens : List Nat) : Nat :=
  (nst + 1 + ficLen + subLens.sum) % 65536

/-- The FL value as the spec states it (for comparison with `code_FL`):
`fl = nst + 1 + fic_len/4 + Σ subch_len/4`, in 32-bit words. -/
def spec_FL (nst ficLen : Nat) (subLens : List Nat) : Nat :=
  nst + 1 + ficLen / 4 + (subLens.map (fun l => l / 4)).sum

/-- The four STC bytes `Receiver::assemble` emits per subchannel
(`src/receiver.cpp` lines 245-251). -/
def stcBytes (sub : eti_stc_data) : List Nat :=
  [ u8 ((sub.scid <<< 2) ||| (sub.sad &&& 0x300))
  , u8 (sub.sad &&& 0xff)
  , u8 ((sub.tpl <<< 2) ||| ((sub.stl &&& 0x300) >>> 8))
  , u8 (sub.stl &&& 0xff) ]

/-- The ETI reconstruction branch of `Receiver::assemble`
(`src/receiver.cpp` lines 175-321), for a state where the protocol, FC,
FIC, time and MNSC/RFU fields have been collected.  The leading
`m_proto_valid` / `m_fc_valid` / FIC guards are the `logic_error` /
`invalid_argument` throws of lines 177-197; the final length guard is the
`logic_error` of lines 294-306.  Emission to the callback and the
state-reset tail are outside the frame computation. -/
def assemble_eti (err : Nat) (fc : eti_fc_data) (fic : List Nat)
    (subchannels : List eti_stc_data) (mnsc rfu : Nat) :
    Except String (List Nat) :=
  if fic.length = 0 then
    .error "Cannot assemble ETI without FIC data"
  else if (fc.mid = 3 ∧ fic.length ≠ 32 * 4) ∨ (fc.mid ≠ 3 ∧ fic.length ≠ 24 * 4) then
    .error "Invalid FIC length"
  else
    let fsync : List Nat :=
      if fc.fct % 2 = 1 then [0xf8, 0xc5, 0x49] else [0x07, 0x3a, 0xb6]
    let NST := subchannels.length
    let FL := code_FL NST fic.length (subchannels.map (fun sub => sub.mst.length))
    let fp_mid_fl := ((fc.fp <<< 13) ||| (fc.mid <<< 11) ||| FL) % 65536
    let header := [u8 err] ++ fsync
      ++ [ u8 fc.fct
         , u8 (((if fc.ficf then 1 else 0) <<< 7) ||| NST)
         , u8 (fp_mid_fl >>> 8)
         , u8 (fp_mid_fl &&& 0xFF) ]
      ++ (subchannels.map stcBytes).flatten
      ++ [u8 (mnsc >>> 8), u8 (mnsc &&& 0xFF)]
    let eti_crc := crc16 0xFFFF (header.drop 4) ^^^ 0xFFFF
    let mst := fic ++ (subchannels.map (fun sub => sub.mst)).flatten
    let mst_crc := crc16 0xFFFF mst ^^^ 0xFFFF
    let eti := header ++ [u8 (eti_crc >>> 8), u8 (eti_crc &&& 0xFF)]
      ++ mst ++ [u8 (mst_crc >>> 8), u8 (mst_crc &&& 0xFF)]
      ++ [u8 (rfu >>> 8), u8 rfu]
      ++ [ u8 (fc.tsta >>> 24), u8 ((fc.tsta >>> 16) &&& 0xFF)
         , u8 ((fc.tsta >>> 8) &&& 0xFF), u8 (fc.tsta &&& 0xFF) ]
    if eti.length > 6144 then
      .error "ETI frame cannot be longer than 6144"
    else
      .ok eti

/-- Outcome of `ETI2ZMQ::encode_zmq_frame` (`src/zmq/edi2zmq.cpp`): the
frame is written to the ZMQ output, silently discarded, or a
`runtime_error` is thrown. -/
inductive ZmqAction where
  | written
  | dropped
  | error
deriving DecidableEq, Repr

/-- `ETI2ZMQ::encode_zmq_frame` (`src/zmq/edi2zmq.cpp` lines 43-56) acting
on `m_expected_next_fp` (initially 0), given the frame's `fp` field:
returns the new `m_expected_next_fp` and what happened to the frame. -/
def encode_zmq_frame (expected_next_fp : Nat) (fp : Nat) : Nat × ZmqAction :=
  if fp % 4 = expected_next_fp then
    ((expected_next_fp + 1) % 4, .written)
  else if expected_next_fp ≠ 0 then
    (expected_next_fp, .error)
  else
    (expected_next_fp, .dropped)

/-- Invariant on the sender state used for the queue claims: the pending
list is strictly increasing in timestamp, every pending entry lies strictly
after `_most_recent_timestamp` whenever the latter is valid, and every
pending entry carries a valid timestamp. -/
def QueueInv (s : SenderState) : Prop :=
  s.pending.Pairwise tpLt
  ∧ (s.mostRecent.is_valid → ∀ tp ∈ s.pending, tsLt s.mostRecent tp.timestamp)
  ∧ (∀ tp ∈ s.pending, tp.timestamp.is_valid)

/-- An operation only pushes packets carrying a valid (nonzero-seconds)
timestamp. -/
def opValid : SenderOp → Prop
  | .push tp _ _ => tp.timestamp.is_valid
  | .proc _ _ => True

instance : (op : SenderOp) → Decidable (opValid op) := by
  intro op
  cases op with
  | push tp tNow tSteady => exact inferInstanceAs (Decidable tp.timestamp.is_valid)
  | proc tNow tSteady => exact inferInstanceAs (Decidable True)

/-- Timestamps of a pop-event trace, in pop order. -/
def poppedTs (evs : List (tagpacket_t × Bool)) : List Timestamp :=
  evs.map (fun e => e.1.timestamp)

/-- Filter of a pending list down to the entries carrying timestamp `ts`. -/
def entriesAt (ts : Timestamp) (l : List tagpacket_t) : List tagpacket_t :=
  l.filter (fun e => decide (tsEq e.timestamp ts))

/-- A configuration with the wait delay disabled, as set by
`set delay null`. -/
def cfgNoDelay : ProcCfg := ⟨none, true, 5000, true⟩

/-- A packet with a no-seconds timestamp and sub-second field 100. -/
def tpSub100 : tagpacket_t := ⟨"a", 1, [1], ⟨0, 0, 100⟩⟩

/-- A packet with a no-seconds timestamp and sub-second field 50. -/
def tpSub50 : tagpacket_t := ⟨"b", 2, [1], ⟨0, 0, 50⟩⟩

/-- A packet carrying a valid timestamp, for the witness runs. -/
def tpValid1 : tagpacket_t := ⟨"a", 1, [1], ⟨10, 0, 0⟩⟩

/-- A later packet carrying a valid timestamp, for the witness runs. -/
def tpValid2 : tagpacket_t := ⟨"b", 2, [1], ⟨11, 0, 0⟩⟩

/-- A process state about to pop `tpValid2` while holding a DLFC continuity
expectation that `tpValid2.dlfc` (= 2) does not meet. -/
def psFired : ProcState :=
  { sender := { initSender with pending := [tpValid2] }
    prevDlfcValid := true
    prevDlfc := 5 }

/-- A sender state whose `_most_recent_timestamp` is valid and ahead of the
incoming traffic. -/
def senderAhead : SenderState := { initSender with mostRecent := ⟨5, 0, 0⟩ }

/-- A packet whose timestamp lies behind `senderAhead.mostRecent` and has
no seconds field, so it is both late and caught by the duplicate guard. -/
def tpBehind : tagpacket_t := ⟨"a", 7, [1], ⟨0, 0, 0⟩⟩

/-- A packet from January 2000, hence far past its release time against a
wall clock at 0. -/
def tpLate : tagpacket_t := ⟨"a", 7, [1], ⟨1, 0, 0⟩⟩

/-- Frame characterisation with an even `fct` (`dlfc = 0`). -/
def fcEven : eti_fc_data := ⟨0, 0, 1, true, 0⟩

/-- Frame characterisation with an odd `fct` (`dlfc = 1`). -/
def fcOdd : eti_fc_data := ⟨1, 0, 1, true, 0⟩

/-- A 96-byte (24-word) FIC, the length `assemble` demands for `mid ≠ 3`. -/
def fic96 : List Nat := List.replicate 96 0

theorem tsLt_trans {a b c : Timestamp} (h1 : tsLt a b) (h2 : tsLt b c) : tsLt a c := by
  rcases h1 with h1 | ⟨e1, l1⟩ <;> rcases h2 with h2 | ⟨e2, l2⟩
  · exact Or.inl (lt_trans h1 h2)
  · exact Or.inl (e2 ▸ h1)
  · exact Or.inl (e1 ▸ h2)
  · exact Or.inr ⟨e1.trans e2, lt_trans l1 l2⟩

theorem tsLt_total (a b : Timestamp) : tsLt a b ∨ tsEq a b ∨ tsLt b a := by
  rcases Nat.lt_trichotomy a.seconds b.seconds with h | h | h
  · exact Or.inl (Or.inl h)
  · rcases Nat.lt_trichotomy a.tsta b.tsta with h2 | h2 | h2
    · exact Or.inl (Or.inr ⟨h, h2⟩)
    · exact Or.inr (Or.inl ⟨h, h2⟩)
    · exact Or.inr (Or.inr (Or.inr ⟨h.symm, h2⟩))
  · exact Or.inr (Or.inr (Or.inl h))

theorem tsLt_not_eq {a b : Timestamp} (h : tsLt a b) : ¬ tsEq a b := by
  rcases h with h | ⟨e, l⟩ <;> rintro ⟨es, et⟩ <;> omega

theorem tsEq_symm {a b : Timestamp} (h : tsEq a b) : tsEq b a :=
  ⟨h.1.symm, h.2.symm⟩

theorem tsLt_of_not_lt_not_eq {a b : Timestamp} (h1 : ¬ tsLt a b) (h2 : ¬ tsEq a b) :
    tsLt b a :=
  ((tsLt_total a b).resolve_left h1).resolve_left h2

theorem tsLt_of_not_le {a b : Timestamp} (h : ¬ tsLe a b) : tsLt b a :=
  tsLt_of_not_lt_not_eq (fun hlt => h (Or.inl hlt)) (fun heq => h (Or.inr heq))

theorem insertTagpacket_ts_mem (tp : tagpacket_t) (l : List tagpacket_t) :
    ∀ x ∈ insertTagpacket tp l,
      x.timestamp = tp.timestamp ∨ x.timestamp ∈ l.map tagpacket_t.timestamp := by
  induction l with
  | nil =>
    intro x hx
    simp only [insertTagpacket, List.mem_singleton] at hx
    exact Or.inl (hx ▸ rfl)
  | cons it rest ih =>
    intro x hx
    rw [insertTagpacket] at hx
    split at hx
    · rcases List.mem_cons.mp hx with rfl | hx
      · exact Or.inl rfl
      · exact Or.inr (List.mem_map_of_mem _ hx)
    · split at hx
      · split at hx
        · exact Or.inr (List.mem_map_of_mem _ hx)
        · rcases List.mem_cons.mp hx with rfl | hx
          · exact Or.inr (List.mem_map.mpr ⟨it, List.mem_cons_self it rest, rfl⟩)
          · exact Or.inr (List.mem_map_of_mem _ (List.mem_cons_of_mem it hx))
      · rcases List.mem_cons.mp hx with rfl | hx
        · exact Or.inr (List.mem_map.mpr ⟨x, List.mem_cons_self x rest, rfl⟩)
        · rcases ih x hx with h | h
          · exact Or.inl h
          · rcases List.mem_map.mp h with ⟨y, hy, hyts⟩
            exact Or.inr (List.mem_map.mpr ⟨y, List.mem_cons_of_mem it hy, hyts⟩)

theorem insertTagpacket_pairwise (tp : tagpacket_t) {l : List tagpacket_t}
    (hl : l.Pairwise tpLt) : (insertTagpacket tp l).Pairwise tpLt := by
  induction l with
  | nil => simp [insertTagpacket]
  | cons it rest ih =>
    rcases List.pairwise_cons.mp hl with ⟨hhead, hrest⟩
    rw [insertTagpacket]
    by_cases h1 : tsLt tp.timestamp it.timestamp
    · rw [if_pos h1]
      refine List.pairwise_cons.mpr ⟨?_, hl⟩
      intro x hx
      rcases List.mem_cons.mp hx with rfl | hx
      · exact h1
      · exact tsLt_trans h1 (hhead x hx)
    · rw [if_neg h1]
      by_cases h2 : tsEq tp.timestamp it.timestamp
      · rw [if_pos h2]
        by_cases h3 : tp.dlfc ≠ it.dlfc
        · rw [if_pos h3]; exact hl
        · rw [if_neg h3]
          exact List.pairwise_cons.mpr ⟨fun x hx => hhead x hx, hrest⟩
      · rw [if_neg h2]
        refine List.pairwise_cons.mpr ⟨?_, ih hrest⟩
        intro x hx
        rcases insertTagpacket_ts_mem tp rest x hx with hts | hts
        · show tsLt it.timestamp x.timestamp
          rw [hts]
          exact tsLt_of_not_lt_not_eq h1 h2
        · rcases List.mem_map.mp hts with ⟨y, hy, hyts⟩
          show tsLt it.timestamp x.timestamp
          rw [← hyts]
          exact hhead y hy

theorem insertTagpacket_length (tp : tagpacket_t) (l : List tagpacket_t) :
    (insertTagpacket tp l).length ≤ l.length + 1 := by
  induction l with
  | nil => simp [insertTagpacket]
  | cons it rest ih =>
    rw [insertTagpacket]
    split
    · simp
    · split
      · split <;> simp
      · simpa using Nat.succ_le_succ ih

theorem send_tagpacket_pending (s : SenderState) (tp : tagpacket_t) (delay : Option Int)
    (drop_late outputEnabled : Bool) (tNow tSteady : Int) :
    (send_tagpacket s tp delay drop_late outputEnabled tNow tSteady).pending = s.pending := by
  simp only [send_tagpacket]
  split_ifs <;> rfl

theorem send_tagpacket_mostRecent (s : SenderState) (tp : tagpacket_t) (delay : Option Int)
    (drop_late outputEnabled : Bool) (tNow tSteady : Int) :
    (send_tagpacket s tp delay drop_late outputEnabled tNow tSteady).mostRecent = s.mostRecent := by
  simp only [send_tagpacket]
  split_ifs <;> rfl

theorem send_tagpacket_late_score (s : SenderState) (tp : tagpacket_t) (delay : Option Int)
    (drop_late outputEnabled : Bool) (tNow tSteady : Int) :
    (send_tagpacket s tp delay drop_late outputEnabled tNow tSteady).late_score = s.late_score := by
  simp only [send_tagpacket]
  split_ifs <;> rfl

theorem send_tagpacket_inhibitUntil (s : SenderState) (tp : tagpacket_t) (delay : Option Int)
    (drop_late outputEnabled : Bool) (tNow tSteady : Int) :
    (send_tagpacket s tp delay drop_late outputEnabled tNow tSteady).inhibitUntil
      = s.inhibitUntil := by
  simp only [send_tagpacket]
  split_ifs <;> rfl

theorem send_tagpacket_numDlfc (s : SenderState) (tp : tagpacket_t) (delay : Option Int)
    (drop_late outputEnabled : Bool) (tNow tSteady : Int) :
    (send_tagpacket s tp delay drop_late outputEnabled tNow tSteady).numDlfcDiscontinuities
      = s.numDlfcDiscontinuities := by
  simp only [send_tagpacket]
  split_ifs <;> rfl

theorem overrunTrim_mostRecent (s : SenderState) :
    (overrunTrim s).mostRecent = s.mostRecent := by
  unfold overrunTrim
  split <;> rfl

theorem overrunTrim_late_score (s : SenderState) :
    (overrunTrim s).late_score = s.late_score := by
  unfold overrunTrim
  split <;> rfl

theorem overrunTrim_numDlfc (s : SenderState) :
    (overrunTrim s).numDlfcDiscontinuities = s.numDlfcDiscontinuities := by
  unfold overrunTrim
  split <;> rfl

theorem push_body_mostRecent (s : SenderState) (tp : tagpacket_t) (delay : Option Int)
    (tNow tSteady : Int) :
    (push_body s tp delay tNow tSteady).mostRecent = s.mostRecent := by
  simp only [push_body]
  split_ifs <;> rfl

theorem push_body_numDlfc (s : SenderState) (tp : tagpacket_t) (delay : Option Int)
    (tNow tSteady : Int) :
    (push_body s tp delay tNow tSteady).numDlfcDiscontinuities = s.numDlfcDiscontinuities := by
  simp only [push_body]
  split_ifs <;> rfl

theorem push_tagpacket_mostRecent (s : SenderState) (tp : tagpacket_t) (delay : Option Int)
    (tNow tSteady : Int) :
    (push_tagpacket s tp delay tNow tSteady).mostRecent = s.mostRecent := by
  unfold push_tagpacket
  rw [overrunTrim_mostRecent, push_body_mostRecent]

theorem push_tagpacket_numDlfc (s : SenderState) (tp : tagpacket_t) (delay : Option Int)
    (tNow tSteady : Int) :
    (push_tagpacket s tp delay tNow tSteady).numDlfcDiscontinuities
      = s.numDlfcDiscontinuities := by
  unfold push_tagpacket
  rw [overrunTrim_numDlfc, push_body_numDlfc]

theorem overrunTrim_inv {s : SenderState} (h : QueueInv s) : QueueInv (overrunTrim s) := by
  unfold overrunTrim
  split
  · obtain ⟨h1, h2, h3⟩ := h
    refine ⟨h1.tail, ?_, ?_⟩
    · intro hv tp htp
      exact h2 hv tp (List.mem_of_mem_tail htp)
    · intro tp htp
      exact h3 tp (List.mem_of_mem_tail htp)
  · exact h

theorem insert_inv_parts {s : SenderState} {tp : tagpacket_t} (h : QueueInv s)
    (hv : tp.timestamp.is_valid)
    (hguard : ¬ (s.mostRecent.is_valid ∧ tsLe tp.timestamp s.mostRecent)) :
    (insertTagpacket tp s.pending).Pairwise tpLt
    ∧ (s.mostRecent.is_valid →
        ∀ x ∈ insertTagpacket tp s.pending, tsLt s.mostRecent x.timestamp)
    ∧ (∀ x ∈ insertTagpacket tp s.pending, x.timestamp.is_valid) := by
  obtain ⟨h1, h2, h3⟩ := h
  refine ⟨insertTagpacket_pairwise tp h1, ?_, ?_⟩
  · intro hvm x hx
    rcases insertTagpacket_ts_mem tp s.pending x hx with hts | hts
    · have hle : ¬ tsLe tp.timestamp s.mostRecent := fun hle => hguard ⟨hvm, hle⟩
      rw [hts]
      exact tsLt_of_not_le hle
    · rcases List.mem_map.mp hts with ⟨y, hy, hyts⟩
      rw [← hyts]
      exact h2 hvm y hy
  · intro x hx
    rcases insertTagpacket_ts_mem tp s.pending x hx with hts | hts
    · show x.timestamp.seconds ≠ 0
      rw [hts]
      exact hv
    · rcases List.mem_map.mp hts with ⟨y, hy, hyts⟩
      show x.timestamp.seconds ≠ 0
      rw [← hyts]
      exact h3 y hy

theorem push_body_inv {s : SenderState} {tp : tagpacket_t} {delay : Option Int}
    {tNow tSteady : Int} (h : QueueInv s) (hv : tp.timestamp.is_valid) :
    QueueInv (push_body s tp delay tNow tSteady) := by
  obtain ⟨h1, h2, h3⟩ := h
  simp only [push_body]
  split_ifs with hguard hlate hinh
  all_goals
    first
    | exact ⟨h1, h2, h3⟩
    | exact insert_inv_parts ⟨h1, h2, h3⟩ hv hguard

theorem push_tagpacket_inv {s : SenderState} {tp : tagpacket_t} {delay : Option Int}
    {tNow tSteady : Int} (h : QueueInv s) (hv : tp.timestamp.is_valid) :
    QueueInv (push_tagpacket s tp delay tNow tSteady) :=
  overrunTrim_inv (push_body_inv h hv)

theorem send_tagpacket_inv {s : SenderState} {tp : tagpacket_t} {delay : Option Int}
    {drop_late outputEnabled : Bool} {tNow tSteady : Int} (h : QueueInv s) :
    QueueInv (send_tagpacket s tp delay drop_late outputEnabled tNow tSteady) := by
  obtain ⟨h1, h2, h3⟩ := h
  refine ⟨?_, ?_, ?_⟩
  · rw [send_tagpacket_pending]
    exact h1
  · rw [send_tagpacket_pending, send_tagpacket_mostRecent]
    exact h2
  · rw [send_tagpacket_pending]
    exact h3

theorem inhibit_inv (s : SenderState) (tSteady backoff : Int) :
    QueueInv (inhibit s tSteady backoff) :=
  ⟨List.Pairwise.nil, fun _ x hx => absurd hx (List.not_mem_nil x),
    fun x hx => absurd hx (List.not_mem_nil x)⟩

theorem popped_state_inv {ps : ProcState} {tp : tagpacket_t} {rest : List tagpacket_t}
    (hp : ps.sender.pending = tp :: rest) (h : QueueInv ps.sender) :
    QueueInv { ps.sender with pending := rest, mostRecent := tp.timestamp } := by
  obtain ⟨h1, h2, h3⟩ := h
  rw [hp] at h1 h3
  rcases List.pairwise_cons.mp h1 with ⟨hhead, hrest⟩
  refine ⟨hrest, ?_, ?_⟩
  · intro _ x hx
    exact hhead x hx
  · intro x hx
    exact h3 x (List.mem_cons_of_mem tp hx)

theorem processIteration_spec {cfg : ProcCfg} {ps : ProcState} {tNow tSteady : Int}
    (h : QueueInv ps.sender) :
    QueueInv (processIteration cfg ps tNow tSteady).1.sender
    ∧ ((ps.sender.pending = [] ∧ processIteration cfg ps tNow tSteady = (ps, none))
       ∨ ∃ tp rest b, ps.sender.pending = tp :: rest
          ∧ (processIteration cfg ps tNow tSteady).2 = some (tp, b)
          ∧ (processIteration cfg ps tNow tSteady).1.sender.mostRecent = tp.timestamp) := by
  rcases hp : ps.sender.pending with _ | ⟨tp, rest⟩
  · constructor
    · unfold processIteration
      rw [hp]
      exact h
    · left
      refine ⟨rfl, ?_⟩
      unfold processIteration
      rw [hp]
  · have hinv0 : QueueInv { ps.sender with pending := rest, mostRecent := tp.timestamp } :=
      popped_state_inv hp h
    unfold processIteration
    rw [hp]
    dsimp only
    split_ifs with haf hfired
    · exact ⟨hinv0, Or.inr ⟨tp, rest, false, rfl, rfl, rfl⟩⟩
    · constructor
      · exact send_tagpacket_inv (inhibit_inv _ _ _)
      · refine Or.inr ⟨tp, rest, true, rfl, rfl, ?_⟩
        show (send_tagpacket _ _ _ _ _ _ _).mostRecent = tp.timestamp
        rw [send_tagpacket_mostRecent]
        rfl
    · constructor
      · exact send_tagpacket_inv hinv0
      · refine Or.inr ⟨tp, rest, false, rfl, rfl, ?_⟩
        show (send_tagpacket _ _ _ _ _ _ _).mostRecent = tp.timestamp
        rw [send_tagpacket_mostRecent]

theorem push_body_pairwise {s : SenderState} (tp : tagpacket_t) (delay : Option Int)
    (tNow tSteady : Int) (h : s.pending.Pairwise tpLt) :
    (push_body s tp delay tNow tSteady).pending.Pairwise tpLt := by
  simp only [push_body]
  split_ifs
  all_goals first | exact h | exact insertTagpacket_pairwise tp h

theorem overrunTrim_pairwise {s : SenderState} (h : s.pending.Pairwise tpLt) :
    (overrunTrim s).pending.Pairwise tpLt := by
  unfold overrunTrim
  split
  · exact h.tail
  · exact h

theorem push_tagpacket_pairwise {s : SenderState} (tp : tagpacket_t) (delay : Option Int)
    (tNow tSteady : Int) (h : s.pending.Pairwise tpLt) :
    (push_tagpacket s tp delay tNow tSteady).pending.Pairwise tpLt :=
  overrunTrim_pairwise (push_body_pairwise tp delay tNow tSteady h)

theorem processIteration_pairwise {cfg : ProcCfg} {ps : ProcState} {tNow tSteady : Int}
    (h : ps.sender.pending.Pairwise tpLt) :
    (processIteration cfg ps tNow tSteady).1.sender.pending.Pairwise tpLt := by
  rcases hp : ps.sender.pending with _ | ⟨tp, rest⟩
  · unfold processIteration
    rw [hp]
    exact h
  · have hrest : rest.Pairwise tpLt := by
      rw [hp] at h
      exact (List.pairwise_cons.mp h).2
    unfold processIteration
    rw [hp]
    dsimp only
    split_ifs
    · exact hrest
    · show (send_tagpacket _ _ _ _ _ _ _).pending.Pairwise tpLt
      rw [send_tagpacket_pending]
      exact List.Pairwise.nil
    · show (send_tagpacket _ _ _ _ _ _ _).pending.Pairwise tpLt
      rw [send_tagpacket_pending]
      exact hrest

theorem applyOp_pairwise {cfg : ProcCfg} {ps : ProcState} {op : SenderOp}
    (h : ps.sender.pending.Pairwise tpLt) :
    (applyOp cfg ps op).1.sender.pending.Pairwise tpLt := by
  cases op with
  | push tp tNow tSteady => exact push_tagpacket_pairwise tp cfg.delay tNow tSteady h
  | proc tNow tSteady => exact processIteration_pairwise h

theorem runOps_pairwise (cfg : ProcCfg) :
    ∀ (ops : List SenderOp) (ps : ProcState), ps.sender.pending.Pairwise tpLt →
      (runOps cfg ps ops).1.sender.pending.Pairwise tpLt := by
  intro ops
  induction ops with
  | nil => intro ps h; exact h
  | cons op ops ih =>
    intro ps h
    exact ih (applyOp cfg ps op).1 (applyOp_pairwise h)

theorem applyOp_inv {cfg : ProcCfg} {ps : ProcState} {op : SenderOp}
    (h : QueueInv ps.sender) (hv : opValid op) :
    QueueInv (applyOp cfg ps op).1.sender := by
  cases op with
  | push tp tNow tSteady => exact push_tagpacket_inv h hv
  | proc tNow tSteady => exact (processIteration_spec h).1

theorem runOps_popped_chain (cfg : ProcCfg) :
    ∀ (ops : List SenderOp) (ps : ProcState), QueueInv ps.sender →
      (∀ op ∈ ops, opValid op) →
      List.Chain' tsLt (poppedTs (runOps cfg ps ops).2)
      ∧ (∀ t ∈ (poppedTs (runOps cfg ps ops).2).head?,
          ps.sender.mostRecent.is_valid → tsLt ps.sender.mostRecent t) := by
  intro ops
  induction ops with
  | nil =>
    intro ps _ _
    exact ⟨List.chain'_nil, by simp [runOps, poppedTs]⟩
  | cons op ops ih =>
    intro ps hinv hvalid
    have hvop : opValid op := hvalid op (List.mem_cons_self op ops)
    have hvops : ∀ o ∈ ops, opValid o := fun o ho => hvalid o (List.mem_cons_of_mem op ho)
    have hinv' : QueueInv (applyOp cfg ps op).1.sender := applyOp_inv hinv hvop
    have hrec := ih (applyOp cfg ps op).1 hinv' hvops
    cases op with
    | push tp tNow tSteady =>
      have hev : (applyOp cfg ps (SenderOp.push tp tNow tSteady)).2 = none := rfl
      have hruns : (runOps cfg ps (SenderOp.push tp tNow tSteady :: ops)).2
          = (runOps cfg (applyOp cfg ps (SenderOp.push tp tNow tSteady)).1 ops).2 := by
        simp [runOps, hev]
      rw [hruns]
      refine ⟨hrec.1, ?_⟩
      intro t ht hvm
      have hm : (applyOp cfg ps (SenderOp.push tp tNow tSteady)).1.sender.mostRecent
          = ps.sender.mostRecent := push_tagpacket_mostRecent _ _ _ _ _
      have := hrec.2 t ht
      rw [hm] at this
      exact this hvm
    | proc tNow tSteady =>
      rcases (@processIteration_spec cfg ps tNow tSteady hinv).2
        with ⟨hemp, heq⟩ | ⟨tp, rest, b, hp, hev, hm⟩
      · have hruns : (runOps cfg ps (SenderOp.proc tNow tSteady :: ops)).2
            = (runOps cfg (applyOp cfg ps (SenderOp.proc tNow tSteady)).1 ops).2 := by
          simp only [runOps, applyOp]
          rw [heq]
          simp
        have hst : (applyOp cfg ps (SenderOp.proc tNow tSteady)).1 = ps := by
          show (processIteration cfg ps tNow tSteady).1 = ps
          rw [heq]
        rw [hruns]
        rw [hst] at hrec ⊢
        exact hrec
      · have htpmem : tp ∈ ps.sender.pending := by
          rw [hp]
          exact List.mem_cons_self tp rest
        have htpvalid : tp.timestamp.is_valid := hinv.2.2 tp htpmem
        have hruns : (runOps cfg ps (SenderOp.proc tNow tSteady :: ops)).2
            = (tp, b) :: (runOps cfg (applyOp cfg ps (SenderOp.proc tNow tSteady)).1 ops).2 := by
          simp only [runOps, applyOp]
          rw [hev]
          simp
        rw [hruns]
        have hchain : List.Chain' tsLt
            (tp.timestamp :: poppedTs (runOps cfg (applyOp cfg ps (SenderOp.proc tNow tSteady)).1 ops).2) := by
          rw [List.chain'_cons']
          refine ⟨?_, hrec.1⟩
          intro t ht
          have := hrec.2 t ht
          rw [show (applyOp cfg ps (SenderOp.proc tNow tSteady)).1.sender.mostRecent
              = tp.timestamp from hm] at this
          exact this htpvalid
        refine ⟨hchain, ?_⟩
        intro t ht hvm
        have : t = tp.timestamp := by
          simp [poppedTs] at ht
          exact ht.symm
        rw [this]
        exact hinv.2.1 hvm tp htpmem

theorem processIteration_fired {cfg : ProcCfg} {ps : ProcState} {tNow tSteady : Int}
    {tp : tagpacket_t} {rest : List tagpacket_t}
    (hp : ps.sender.pending = tp :: rest) (haf : ¬ tp.afpacket = [])
    (hprev : ps.prevDlfcValid = true) (hmis : (ps.prevDlfc + 1) % 5000 ≠ tp.dlfc) :
    (processIteration cfg ps tNow tSteady).2 = some (tp, true)
    ∧ (processIteration cfg ps tNow tSteady).1.sender.numDlfcDiscontinuities
        = ps.sender.numDlfcDiscontinuities + 1
    ∧ (processIteration cfg ps tNow tSteady).1.sender.pending = []
    ∧ (processIteration cfg ps tNow tSteady).1.sender.late_score = 0
    ∧ (processIteration cfg ps tNow tSteady).1.sender.inhibitUntil = tSteady + cfg.backoff
    ∧ (processIteration cfg ps tNow tSteady).1.prevDlfcValid = false := by
  unfold processIteration
  rw [hp]
  dsimp only
  rw [if_neg haf, if_pos ⟨hprev, hmis⟩]
  refine ⟨rfl, ?_, ?_, ?_, ?_, rfl⟩
  · show (send_tagpacket _ _ _ _ _ _ _).numDlfcDiscontinuities = _
    rw [send_tagpacket_numDlfc]
    rfl
  · show (send_tagpacket _ _ _ _ _ _ _).pending = []
    rw [send_tagpacket_pending]
    rfl
  · show (send_tagpacket _ _ _ _ _ _ _).late_score = 0
    rw [send_tagpacket_late_score]
    rfl
  · show (send_tagpacket _ _ _ _ _ _ _).inhibitUntil = _
    rw [send_tagpacket_inhibitUntil]
    rfl

theorem processIteration_dlfc_count {cfg : ProcCfg} {ps : ProcState} {tNow tSteady : Int} :
    (processIteration cfg ps tNow tSteady).1.sender.numDlfcDiscontinuities
      = ps.sender.numDlfcDiscontinuities
        + (((processIteration cfg ps tNow tSteady).2.toList.filter (fun e => e.2)).length) := by
  rcases hp : ps.sender.pending with _ | ⟨tp, rest⟩
  · unfold processIteration
    rw [hp]
    rfl
  · unfold processIteration
    rw [hp]
    dsimp only
    split_ifs with haf hfired
    · rfl
    · show (send_tagpacket _ _ _ _ _ _ _).numDlfcDiscontinuities = _
      rw [send_tagpacket_numDlfc]
      rfl
    · show (send_tagpacket _ _ _ _ _ _ _).numDlfcDiscontinuities = _
      rw [send_tagpacket_numDlfc]
      rfl

theorem applyOp_dlfc_count {cfg : ProcCfg} {ps : ProcState} {op : SenderOp} :
    (applyOp cfg ps op).1.sender.numDlfcDiscontinuities
      = ps.sender.numDlfcDiscontinuities
        + (((applyOp cfg ps op).2.toList.filter (fun e => e.2)).length) := by
  cases op with
  | push tp tNow tSteady =>
    show (push_tagpacket _ _ _ _ _).numDlfcDiscontinuities = _
    rw [push_tagpacket_numDlfc]
    rfl
  | proc tNow tSteady => exact processIteration_dlfc_count

theorem runOps_dlfc_count (cfg : ProcCfg) :
    ∀ (ops : List SenderOp) (ps : ProcState),
      (runOps cfg ps ops).1.sender.numDlfcDiscontinuities
        = ps.sender.numDlfcDiscontinuities
          + (((runOps cfg ps ops).2.filter (fun e => e.2)).length) := by
  intro ops
  induction ops with
  | nil => intro ps; rfl
  | cons op ops ih =>
    intro ps
    show (runOps cfg (applyOp cfg ps op).1 ops).1.sender.numDlfcDiscontinuities
      = ps.sender.numDlfcDiscontinuities
        + ((((applyOp cfg ps op).2.toList
              ++ (runOps cfg (applyOp cfg ps op).1 ops).2).filter (fun e => e.2)).length)
    rw [List.filter_append, List.length_append, ih (applyOp cfg ps op).1,
      applyOp_dlfc_count]
    omega

theorem applyOp_prevValid_push {cfg : ProcCfg} {ps : ProcState} {tp : tagpacket_t}
    {tNow tSteady : Int} :
    (applyOp cfg ps (SenderOp.push tp tNow tSteady)).1.prevDlfcValid = ps.prevDlfcValid := rfl

theorem processIteration_branch {cfg : ProcCfg} {ps : ProcState} {tNow tSteady : Int}
    {tp : tagpacket_t} {rest : List tagpacket_t} (hp : ps.sender.pending = tp :: rest) :
    ∃ b, (processIteration cfg ps tNow tSteady).2 = some (tp, b)
      ∧ (b = true → ps.prevDlfcValid = true)
      ∧ (b = true → (processIteration cfg ps tNow tSteady).1.prevDlfcValid = false) := by
  unfold processIteration
  rw [hp]
  dsimp only
  split_ifs with haf hfired
  · exact ⟨false, rfl, fun h => Bool.noConfusion h, fun h => Bool.noConfusion h⟩
  · exact ⟨true, rfl, fun _ => hfired.1, fun _ => rfl⟩
  · exact ⟨false, rfl, fun h => Bool.noConfusion h, fun h => Bool.noConfusion h⟩

theorem runOps_no_adjacent_fires (cfg : ProcCfg) :
    ∀ (ops : List SenderOp) (ps : ProcState),
      (ps.prevDlfcValid = false → ∀ e ∈ (runOps cfg ps ops).2.head?, e.2 = false)
      ∧ List.Chain' (fun a b => a.2 = false ∨ b.2 = false) (runOps cfg ps ops).2 := by
  intro ops
  induction ops with
  | nil =>
    intro ps
    exact ⟨by simp [runOps], List.chain'_nil⟩
  | cons op ops ih =>
    intro ps
    have hrec := ih (applyOp cfg ps op).1
    cases op with
    | push tp tNow tSteady =>
      have hruns : (runOps cfg ps (SenderOp.push tp tNow tSteady :: ops)).2
          = (runOps cfg (applyOp cfg ps (SenderOp.push tp tNow tSteady)).1 ops).2 := by
        simp [runOps]
        rfl
      rw [hruns]
      refine ⟨?_, hrec.2⟩
      intro hpv
      exact hrec.1 (by rw [applyOp_prevValid_push]; exact hpv)
    | proc tNow tSteady =>
      rcases hp : ps.sender.pending with _ | ⟨tp, rest⟩
      · have hid : processIteration cfg ps tNow tSteady = (ps, none) := by
          unfold processIteration
          rw [hp]
        have hruns : (runOps cfg ps (SenderOp.proc tNow tSteady :: ops)).2
            = (runOps cfg (applyOp cfg ps (SenderOp.proc tNow tSteady)).1 ops).2 := by
          show ((processIteration cfg ps tNow tSteady).2.toList ++ _) = _
          rw [hid]
          simp
        have hst : (applyOp cfg ps (SenderOp.proc tNow tSteady)).1 = ps := by
          show (processIteration cfg ps tNow tSteady).1 = ps
          rw [hid]
        rw [hruns]
        refine ⟨?_, hrec.2⟩
        intro hpv
        exact hrec.1 (by rw [hst]; exact hpv)
      · rcases @processIteration_branch cfg ps tNow tSteady tp rest hp
          with ⟨b, hev, hpre, hpost⟩
        have hruns : (runOps cfg ps (SenderOp.proc tNow tSteady :: ops)).2
            = (tp, b) :: (runOps cfg (applyOp cfg ps (SenderOp.proc tNow tSteady)).1 ops).2 := by
          show ((processIteration cfg ps tNow tSteady).2.toList ++ _) = _
          rw [hev]
          simp
        rw [hruns]
        constructor
        · intro hpv e he
          simp only [List.head?_cons, Option.mem_def, Option.some.injEq] at he
          cases hb : b
          · rw [← he]
            simp [hb]
          · rw [hpre hb] at hpv
            cases hpv
        · rw [List.chain'_cons']
          refine ⟨?_, hrec.2⟩
          intro e he
          cases hb : b
          · exact Or.inl (by simp [hb])
          · refine Or.inr ?_
            exact hrec.1 (by
              show (processIteration cfg ps tNow tSteady).1.prevDlfcValid = false
              exact hpost hb) e he

theorem initProc_inv : QueueInv initProc.sender :=
  ⟨List.Pairwise.nil, fun _ x hx => absurd hx (List.not_mem_nil x),
    fun x hx => absurd hx (List.not_mem_nil x)⟩

/-- C1.  For every interleaving of `push_tagpacket` and `process`-loop
operations started from the initial `EDISender` state, the pending list is
strictly increasing in timestamp after each operation.  The second part of
the claim holds in the form forced by the counterexample
`C1_popped_not_monotonic_cex`: the timestamps recorded at successive pops
form a strictly increasing sequence provided every pushed packet carries a
valid timestamp (`seconds ≠ 0`); packets without a seconds timestamp (which
can only be enqueued when the delay is disabled) may break pop
monotonicity, because an invalid `_most_recent_timestamp` disables the
duplicate guard. -/
theorem C1_merge_queue_monotonic (cfg : ProcCfg) (ops : List SenderOp) :
    (∀ n : Nat, ((runOps cfg initProc (ops.take n)).1.sender.pending).Pairwise tpLt)
    ∧ ((∀ op ∈ ops, opValid op) →
        List.Chain' tsLt (poppedTs (runOps cfg initProc ops).2)) := by
  constructor
  · intro n
    exact runOps_pairwise cfg (ops.take n) initProc List.Pairwise.nil
  · intro hv
    exact (runOps_popped_chain cfg ops initProc initProc_inv hv).1

/-- C1 witness: a concrete run of two valid-timestamp pushes and two pops
whose popped timestamps the theorem proves strictly increasing. -/
theorem C1_merge_queue_monotonic_witness :
    List.Chain' tsLt (poppedTs (runOps cfgNoDelay initProc
      [ .push tpValid1 0 0, .proc 0 0, .push tpValid2 0 0, .proc 0 0 ]).2) :=
  (C1_merge_queue_monotonic cfgNoDelay
    [ .push tpValid1 0 0, .proc 0 0, .push tpValid2 0 0, .proc 0 0 ]).2 (by decide)

/-- C1 counterexample: with the delay disabled, two packets whose
timestamps have `seconds = 0` (sub-second fields 100 then 50) are pushed
and popped in turn; the recorded pop timestamps are (0,100) then (0,50),
which is not strictly monotonic, refuting the unconditional claim. -/
theorem C1_popped_not_monotonic_cex :
    ¬ List.Chain' tsLt (poppedTs (runOps cfgNoDelay initProc
      [ .push tpSub100 0 0, .proc 0 0, .push tpSub50 0 0, .proc 0 0 ]).2) := by
  have h : poppedTs (runOps cfgNoDelay initProc
      [ .push tpSub100 0 0, .proc 0 0, .push tpSub50 0 0, .proc 0 0 ]).2
      = [⟨0, 0, 100⟩, ⟨0, 0, 50⟩] := by decide
  rw [h]
  intro hc
  exact absurd (List.chain'_cons.mp hc).1 (by decide)

/-- C2.  DLFC continuity over any interleaved run from the initial state:
(1) `num_dlfc_discontinuities` counts exactly the pops at which the check
fired, so each violation raises exactly one inhibit; (2) the check never
fires at two consecutive pops — the packet following a discontinuity is not
checked because `prev_dlfc_valid` was cleared; (3) at any pop where the
previous dlfc is valid and `(prev_dlfc + 1) % 5000` differs from the popped
packet's dlfc, the counter is incremented by one and `inhibit()` runs:
the backoff window starts at `tSteady + backoff`, the pending queue is
cleared, `late_score` is reset, and `prev_dlfc_valid` is cleared. -/
theorem C2_dlfc_discontinuity_inhibit :
    (∀ (cfg : ProcCfg) (ops : List SenderOp),
      (runOps cfg initProc ops).1.sender.numDlfcDiscontinuities
        = (((runOps cfg initProc ops).2.filter (fun e => e.2)).length))
    ∧ (∀ (cfg : ProcCfg) (ops : List SenderOp),
        List.Chain' (fun a b => a.2 = false ∨ b.2 = false) (runOps cfg initProc ops).2)
    ∧ (∀ (cfg : ProcCfg) (ps : ProcState) (tNow tSteady : Int) (tp : tagpacket_t)
        (rest : List tagpacket_t),
        ps.sender.pending = tp :: rest → ¬ tp.afpacket = [] →
        ps.prevDlfcValid = true → (ps.prevDlfc + 1) % 5000 ≠ tp.dlfc →
        (processIteration cfg ps tNow tSteady).2 = some (tp, true)
        ∧ (processIteration cfg ps tNow tSteady).1.sender.numDlfcDiscontinuities
            = ps.sender.numDlfcDiscontinuities + 1
        ∧ (processIteration cfg ps tNow tSteady).1.sender.pending = []
        ∧ (processIteration cfg ps tNow tSteady).1.sender.late_score = 0
        ∧ (processIteration cfg ps tNow tSteady).1.sender.inhibitUntil = tSteady + cfg.backoff
        ∧ (processIteration cfg ps tNow tSteady).1.prevDlfcValid = false) := by
  refine ⟨?_, ?_, ?_⟩
  · intro cfg ops
    have := runOps_dlfc_count cfg ops initProc
    simpa [initProc, initSender] using this
  · intro cfg ops
    exact (runOps_no_adjacent_fires cfg ops initProc).2
  · intro cfg ps tNow tSteady tp rest hp haf hprev hmis
    exact processIteration_fired hp haf hprev hmis

/-- C2 witness: a pop of a packet with dlfc 2 while expecting dlfc 6 fires
the check once, counts one discontinuity, clears the queue, resets the
late score and starts the backoff window. -/
theorem C2_dlfc_discontinuity_inhibit_witness :
    (processIteration cfgNoDelay psFired 0 0).2 = some (tpValid2, true)
    ∧ (processIteration cfgNoDelay psFired 0 0).1.sender.numDlfcDiscontinuities
        = psFired.sender.numDlfcDiscontinuities + 1
    ∧ (processIteration cfgNoDelay psFired 0 0).1.sender.pending = []
    ∧ (processIteration cfgNoDelay psFired 0 0).1.sender.late_score = 0
    ∧ (processIteration cfgNoDelay psFired 0 0).1.sender.inhibitUntil = 0 + cfgNoDelay.backoff
    ∧ (processIteration cfgNoDelay psFired 0 0).1.prevDlfcValid = false :=
  C2_dlfc_discontinuity_inhibit.2.2 cfgNoDelay psFired 0 0 tpValid2 []
    rfl (by decide) rfl (by decide)

/-- C3 (amended).  Late-score law at push, as the code implements it: a
packet rejected by the `_most_recent_timestamp` guard leaves the score
unchanged (even when it is late); otherwise a late packet raises the score
by 10 saturating at 200; an on-time packet during an inhibit window leaves
it unchanged; and every other on-time packet lowers it by 1 saturating at
0, whether or not it was actually enqueued (a merged duplicate or a
same-timestamp DLFC mismatch still lowers the score). -/
theorem C3_late_score_law (s : SenderState) (tp : tagpacket_t) (delay : Option Int)
    (tNow tSteady : Int) :
    (push_tagpacket s tp delay tNow tSteady).late_score =
      if s.mostRecent.is_valid ∧ tsLe tp.timestamp s.mostRecent then
        s.late_score
      else if lateFlag delay tNow tp.timestamp then
        min (s.late_score + 10) 200
      else if tSteady < s.inhibitUntil then
        s.late_score
      else
        s.late_score - 1 := by
  unfold push_tagpacket
  rw [overrunTrim_late_score]
  simp only [push_body, LATE_SCORE_INCREASE, LATE_SCORE_MAX]
  split_ifs
  all_goals simp_all
  all_goals omega

/-- C3 counterexample: a late packet (configured delay, no seconds
timestamp) that is also rejected by the `_most_recent_timestamp` guard
leaves the late score at 0, while the claimed law requires
`clamp(0 + 10·1, 0, 200) = 10`. -/
theorem C3_late_score_law_cex :
    lateFlag (some 0) 0 tpBehind.timestamp = true
    ∧ (push_tagpacket senderAhead tpBehind (some 0) 0 0).late_score = 0
    ∧ min (senderAhead.late_score + 10) 200 = 10
    ∧ (push_tagpacket senderAhead tpBehind (some 0) 0 0).late_score
        ≠ min (senderAhead.late_score + 10) 200 := by
  decide

/-- C4 (amended).  For a popped packet whose release time
(`timestamp.to_walltime() + delay_ms`) is before the current wall-clock
time, `send_tagpacket` with `drop_late` enabled increments `num_dropped`
and returns without sending; every other piece of the sender state — in
particular the late score, which is only adjusted at push time — is
unchanged. -/
theorem C4_send_late_drop (s : SenderState) (tp : tagpacket_t) (d : Int)
    (outputEnabled : Bool) (tNow tSteady : Int)
    (hlate : toWalltimeMs tp.timestamp + d < tNow) :
    send_tagpacket s tp (some d) true outputEnabled tNow tSteady
      = { s with numDropped := s.numDropped + 1 } := by
  simp [send_tagpacket, hlate]

/-- C4 witness: a frame stamped January 2000 popped at wall-clock 0 with a
0 ms delay is late; with `drop_late` it is counted as dropped and nothing
else changes. -/
theorem C4_send_late_drop_witness :
    send_tagpacket initSender tpLate (some 0) true true 0 0
      = { initSender with numDropped := initSender.numDropped + 1 } :=
  C4_send_late_drop initSender tpLate 0 true 0 0 (by decide)

/-- C4 counterexample: the transmitter does not touch the late score for a
late packet — the claimed increment by 10 does not happen (the score is
raised at push time instead, `src/EDISender.cpp` line 155). -/
theorem C4_no_late_score_increase_cex :
    toWalltimeMs tpLate.timestamp + 0 < 0
    ∧ (send_tagpacket initSender tpLate (some 0) true true 0 0).late_score = 0
    ∧ (send_tagpacket initSender tpLate (some 0) true true 0 0).late_score
        ≠ initSender.late_score + 10 := by
  decide

theorem push_body_length (s : SenderState) (tp : tagpacket_t) (delay : Option Int)
    (tNow tSteady : Int) :
    (push_body s tp delay tNow tSteady).pending.length ≤ s.pending.length + 1 := by
  simp only [push_body]
  split_ifs
  all_goals first
    | exact Nat.le_succ_of_le (Nat.le_refl _)
    | exact insertTagpacket_length tp s.pending

/-- C6.  Starting from a queue of at most 1000 pending tagpackets, the
queue still holds at most 1000 entries after any `push_tagpacket`; and
whenever the insertion stage leaves more than 1000 entries, the final
overrun stage drops the front (oldest) element and increments
`num_queue_overruns`. -/
theorem C6_queue_bound (s : SenderState) (tp : tagpacket_t) (delay : Option Int)
    (tNow tSteady : Int) (h : s.pending.length ≤ MAX_PENDING_TAGPACKETS) :
    (push_tagpacket s tp delay tNow tSteady).pending.length ≤ MAX_PENDING_TAGPACKETS
    ∧ ((push_body s tp delay tNow tSteady).pending.length > MAX_PENDING_TAGPACKETS →
        push_tagpacket s tp delay tNow tSteady
          = { push_body s tp delay tNow tSteady with
              pending := (push_body s tp delay tNow tSteady).pending.tail
              numQueueOverruns := (push_body s tp delay tNow tSteady).numQueueOverruns + 1 }) := by
  have hb := push_body_length s tp delay tNow tSteady
  constructor
  · unfold push_tagpacket overrunTrim
    split_ifs with hover
    · simp only [List.length_tail]
      omega
    · omega
  · intro hover
    unfold push_tagpacket overrunTrim
    rw [if_pos hover]

/-- C6 witness: pushing one packet into the empty initial queue keeps the
queue within its 1000-entry bound. -/
theorem C6_queue_bound_witness :
    (push_tagpacket initSender tpValid1 none 0 0).pending.length ≤ MAX_PENDING_TAGPACKETS :=
  (C6_queue_bound initSender tpValid1 none 0 0 (by decide)).1

theorem tsEq_refl (a : Timestamp) : tsEq a a := ⟨rfl, rfl⟩

theorem entriesAt_eq_nil {ts : Timestamp} {l : List tagpacket_t}
    (h : ∀ y ∈ l, ¬ tsEq y.timestamp ts) : entriesAt ts l = [] := by
  induction l with
  | nil => rfl
  | cons it rest ih =>
    simp only [entriesAt, List.filter_cons]
    rw [decide_eq_false (h it (List.mem_cons_self it rest))]
    simp only [Bool.false_eq_true, if_false]
    exact ih fun y hy => h y (List.mem_cons_of_mem it hy)

theorem entriesAt_insert_fresh {tp : tagpacket_t} {l : List tagpacket_t}
    (h : ∀ y ∈ l, ¬ tsEq y.timestamp tp.timestamp) :
    entriesAt tp.timestamp (insertTagpacket tp l) = [tp]
    ∧ (insertTagpacket tp l).length = l.length + 1 := by
  induction l with
  | nil =>
    constructor
    · simp [insertTagpacket, entriesAt, List.filter_cons, tsEq_refl tp.timestamp]
    · rfl
  | cons it rest ih =>
    have hit : ¬ tsEq it.timestamp tp.timestamp := h it (List.mem_cons_self it rest)
    have hrest : ∀ y ∈ rest, ¬ tsEq y.timestamp tp.timestamp :=
      fun y hy => h y (List.mem_cons_of_mem it hy)
    rw [insertTagpacket]
    split_ifs with h1 h2 h3
    · constructor
      · simp only [entriesAt, List.filter_cons, decide_eq_true (tsEq_refl tp.timestamp),
          decide_eq_false hit, Bool.false_eq_true, if_false, if_true]
        have := entriesAt_eq_nil hrest
        simp only [entriesAt] at this
        rw [this]
      · rfl
    · exact absurd (tsEq_symm h2) hit
    · exact absurd (tsEq_symm h2) hit
    · have := ih hrest
      constructor
      · simp only [entriesAt, List.filter_cons, decide_eq_false hit,
          Bool.false_eq_true, if_false]
        exact this.1
      · simp only [List.length_cons]
        omega

theorem entriesAt_insert_merge {tp e : tagpacket_t} {l : List tagpacket_t}
    (hsorted : l.Pairwise tpLt)
    (hfind : entriesAt tp.timestamp l = [e]) (hdlfc : tp.dlfc = e.dlfc) :
    entriesAt tp.timestamp (insertTagpacket tp l)
      = [{ e with hostnames := e.hostnames ++ ";" ++ tp.hostnames }]
    ∧ (insertTagpacket tp l).length = l.length := by
  induction l with
  | nil => exact absurd hfind (by simp [entriesAt])
  | cons it rest ih =>
    rcases List.pairwise_cons.mp hsorted with ⟨hhead, hrest⟩
    rw [insertTagpacket]
    split_ifs with h1 h2 h3
    · exfalso
      have hmem : e ∈ entriesAt tp.timestamp (it :: rest) := by
        rw [hfind]
        exact List.mem_singleton.mpr rfl
      have := List.of_mem_filter hmem
      have heq : tsEq e.timestamp tp.timestamp := of_decide_eq_true this
      have hememb : e ∈ it :: rest := List.mem_of_mem_filter hmem
      rcases List.mem_cons.mp hememb with rfl | hememb
      · exact tsLt_not_eq h1 (tsEq_symm heq)
      · exact tsLt_not_eq (tsLt_trans h1 (hhead e hememb)) (tsEq_symm heq)
    · have hitpass : decide (tsEq it.timestamp tp.timestamp) = true :=
        decide_eq_true (tsEq_symm h2)
      have hfilter : entriesAt tp.timestamp (it :: rest)
          = it :: entriesAt tp.timestamp rest := by
        simp only [entriesAt, List.filter_cons, hitpass, if_true]
      rw [hfilter] at hfind
      have he : it = e := (List.cons_eq_cons.mp hfind).1
      have hrestnil : entriesAt tp.timestamp rest = [] := (List.cons_eq_cons.mp hfind).2
      exact absurd (hdlfc.trans (congrArg tagpacket_t.dlfc he).symm) h3
    · have hitpass : decide (tsEq it.timestamp tp.timestamp) = true :=
        decide_eq_true (tsEq_symm h2)
      have hfilter : entriesAt tp.timestamp (it :: rest)
          = it :: entriesAt tp.timestamp rest := by
        simp only [entriesAt, List.filter_cons, hitpass, if_true]
      rw [hfilter] at hfind
      have he : it = e := (List.cons_eq_cons.mp hfind).1
      have hrestnil : entriesAt tp.timestamp rest = [] := (List.cons_eq_cons.mp hfind).2
      constructor
      · have hmpass : decide (tsEq ({ it with hostnames := it.hostnames ++ ";" ++ tp.hostnames} :
            tagpacket_t).timestamp tp.timestamp) = true := hitpass
        simp only [entriesAt, List.filter_cons, hmpass, if_true]
        simp only [entriesAt] at hrestnil
        rw [hrestnil, he]
      · rfl
    · have hitfail : ¬ tsEq it.timestamp tp.timestamp :=
        fun hh => tsLt_not_eq (tsLt_of_not_lt_not_eq h1 h2) hh
      have hfilter : entriesAt tp.timestamp (it :: rest)
          = entriesAt tp.timestamp rest := by
        simp only [entriesAt, List.filter_cons, decide_eq_false hitfail,
          Bool.false_eq_true, if_false]
      rw [hfilter] at hfind
      have := ih hrest hfind
      constructor
      · have hfilter2 : entriesAt tp.timestamp (it :: insertTagpacket tp rest)
            = entriesAt tp.timestamp (insertTagpacket tp rest) := by
          simp only [entriesAt, List.filter_cons, decide_eq_false hitfail,
            Bool.false_eq_true, if_false]
        rw [hfilter2]
        exact this.1
      · simp only [List.length_cons]
        omega

theorem overrunTrim_inhibitUntil (s : SenderState) :
    (overrunTrim s).inhibitUntil = s.inhibitUntil := by
  unfold overrunTrim
  split <;> rfl

theorem push_body_inhibitUntil (s : SenderState) (tp : tagpacket_t) (delay : Option Int)
    (tNow tSteady : Int) :
    (push_body s tp delay tNow tSteady).inhibitUntil = s.inhibitUntil := by
  simp only [push_body]
  split_ifs <;> rfl

theorem push_tagpacket_inhibitUntil (s : SenderState) (tp : tagpacket_t) (delay : Option Int)
    (tNow tSteady : Int) :
    (push_tagpacket s tp delay tNow tSteady).inhibitUntil = s.inhibitUntil := by
  unfold push_tagpacket
  rw [overrunTrim_inhibitUntil, push_body_inhibitUntil]

theorem overrunTrim_id {s : SenderState} (h : s.pending.length ≤ MAX_PENDING_TAGPACKETS) :
    overrunTrim s = s := by
  unfold overrunTrim
  rw [if_neg (Nat.not_lt.mpr h)]

theorem push_tagpacket_pending_insert {s : SenderState} {tp : tagpacket_t}
    {delay : Option Int} {tNow tSteady : Int}
    (hguard : ¬ (s.mostRecent.is_valid ∧ tsLe tp.timestamp s.mostRecent))
    (hlate : lateFlag delay tNow tp.timestamp = false)
    (hinh : ¬ tSteady < s.inhibitUntil)
    (hlen : (insertTagpacket tp s.pending).length ≤ MAX_PENDING_TAGPACKETS) :
    (push_tagpacket s tp delay tNow tSteady).pending = insertTagpacket tp s.pending := by
  have hpb : push_body s tp delay tNow tSteady
      = { s with pending := insertTagpacket tp s.pending
                 late_score := if s.late_score > 0 then s.late_score - 1 else s.late_score } := by
    simp only [push_body]
    rw [if_neg hguard, if_pos hlate, if_neg hinh]
  unfold push_tagpacket
  rw [hpb, overrunTrim_id hlen]

/-- C5.  Pushing the same TagPacket twice (equal timestamp, equal dlfc, two
source labels) through the normal path — both copies on time, not caught by
the `_most_recent_timestamp` guard, output not inhibited, queue not about
to overrun, and no entry with that timestamp present beforehand — leaves
exactly one enqueued element with that timestamp: the first copy, with the
second copy's source label appended after a `;`, and the queue grows by one
element in total. -/
theorem C5_duplicate_push (s : SenderState) (tp1 tp2 : tagpacket_t)
    (delay : Option Int) (tNow1 tSteady1 tNow2 tSteady2 : Int)
    (hts : tp2.timestamp = tp1.timestamp) (hdlfc : tp2.dlfc = tp1.dlfc)
    (hsorted : s.pending.Pairwise tpLt)
    (hfresh : ∀ y ∈ s.pending, ¬ tsEq y.timestamp tp1.timestamp)
    (hlen : s.pending.length < MAX_PENDING_TAGPACKETS)
    (hguard1 : ¬ (s.mostRecent.is_valid ∧ tsLe tp1.timestamp s.mostRecent))
    (hlate1 : lateFlag delay tNow1 tp1.timestamp = false)
    (hinh1 : ¬ tSteady1 < s.inhibitUntil)
    (hlate2 : lateFlag delay tNow2 tp2.timestamp = false)
    (hinh2 : ¬ tSteady2 < s.inhibitUntil) :
    entriesAt tp1.timestamp
      (push_tagpacket (push_tagpacket s tp1 delay tNow1 tSteady1)
        tp2 delay tNow2 tSteady2).pending
      = [{ tp1 with hostnames := tp1.hostnames ++ ";" ++ tp2.hostnames }]
    ∧ (push_tagpacket (push_tagpacket s tp1 delay tNow1 tSteady1)
        tp2 delay tNow2 tSteady2).pending.length
      = s.pending.length + 1 := by
  have hfresh1 := @entriesAt_insert_fresh tp1 s.pending hfresh
  have h1pending : (push_tagpacket s tp1 delay tNow1 tSteady1).pending
      = insertTagpacket tp1 s.pending :=
    push_tagpacket_pending_insert hguard1 hlate1 hinh1 (by omega)
  have hguard2 : ¬ ((push_tagpacket s tp1 delay tNow1 tSteady1).mostRecent.is_valid
      ∧ tsLe tp2.timestamp (push_tagpacket s tp1 delay tNow1 tSteady1).mostRecent) := by
    rw [push_tagpacket_mostRecent, hts]
    exact hguard1
  have hinh2' : ¬ tSteady2 < (push_tagpacket s tp1 delay tNow1 tSteady1).inhibitUntil := by
    rw [push_tagpacket_inhibitUntil]
    exact hinh2
  have hfind : entriesAt tp2.timestamp (insertTagpacket tp1 s.pending) = [tp1] := by
    rw [hts]
    exact hfresh1.1
  have hmerge := entriesAt_insert_merge (insertTagpacket_pairwise tp1 hsorted) hfind hdlfc
  have h2pending : (push_tagpacket (push_tagpacket s tp1 delay tNow1 tSteady1)
        tp2 delay tNow2 tSteady2).pending
      = insertTagpacket tp2 (insertTagpacket tp1 s.pending) := by
    have := push_tagpacket_pending_insert (s := push_tagpacket s tp1 delay tNow1 tSteady1)
      hguard2 hlate2 hinh2' (by rw [h1pending]; omega)
    rw [this, h1pending]
  constructor
  · rw [h2pending]
    have hm := hmerge.1
    rw [hts] at hm
    exact hm
  · rw [h2pending, hmerge.2, hfresh1.2]

/-- C5 witness: two pushes of the same frame from hosts `a` and `b` into
the empty initial queue leave a single entry labelled `a;b`. -/
theorem C5_duplicate_push_witness :
    entriesAt tpValid1.timestamp
      (push_tagpacket (push_tagpacket initSender tpValid1 none 0 0)
        ⟨"b", 1, [1], ⟨10, 0, 0⟩⟩ none 0 0).pending
      = [{ tpValid1 with hostnames := tpValid1.hostnames ++ ";" ++ "b" }]
    ∧ (push_tagpacket (push_tagpacket initSender tpValid1 none 0 0)
        ⟨"b", 1, [1], ⟨10, 0, 0⟩⟩ none 0 0).pending.length
      = initSender.pending.length + 1 :=
  C5_duplicate_push initSender tpValid1 ⟨"b", 1, [1], ⟨10, 0, 0⟩⟩ none 0 0 0 0
    rfl rfl List.Pairwise.nil (by decide) (by decide) (by decide) rfl (by decide) rfl (by decide)

/-- C7 (amended).  For every reconstructed ETI frame the FSYNC field (bytes
1-3) equals `F8 C5 49` when `fct` (= dlfc % 250) is **odd** and `07 3A B6`
when `fct` is **even** — the opposite parity assignment to the claim's. -/
theorem C7_fsync_parity (err : Nat) (fc : eti_fc_data) (fic : List Nat)
    (subchannels : List eti_stc_data) (mnsc rfu : Nat) (eti : List Nat)
    (h : assemble_eti err fc fic subchannels mnsc rfu = .ok eti) :
    (eti.drop 1).take 3
      = if fc.fct % 2 = 1 then [0xf8, 0xc5, 0x49] else [0x07, 0x3a, 0xb6] := by
  simp only [assemble_eti] at h
  split_ifs at h with h1 h2
  all_goals simp only [Except.ok.injEq] at h
  all_goals subst h
  all_goals split_ifs
  all_goals simp_all

/-- C7 witness: an odd `fct` (dlfc = 1) yields FSYNC `F8 C5 49`. -/
theorem C7_fsync_parity_witness :
    (((assemble_eti 0 fcOdd fic96 [] 0 0).toOption.getD []).drop 1).take 3
      = [0xf8, 0xc5, 0x49] := by
  have h := C7_fsync_parity 0 fcOdd fic96 [] 0 0
    ((assemble_eti 0 fcOdd fic96 [] 0 0).toOption.getD []) (by rfl)
  rw [h]
  decide

/-- C7 counterexample: dlfc = 0 gives an even `fct`; the reconstructed
frame carries FSYNC `07 3A B6` where the claim demands `F8 C5 49`. -/
theorem C7_fsync_parity_cex :
    fcEven.fct % 2 = 0
    ∧ (assemble_eti 0 fcEven fic96 [] 0 0).toOption.map (fun l => (l.drop 1).take 3)
        = some [0x07, 0x3a, 0xb6]
    ∧ [0x07, 0x3a, 0xb6] ≠ [0xf8, 0xc5, 0x49] := by
  decide

/-- C8 (code-bug evidence).  At the failing input — no subchannels, the
mandatory 96-byte FIC, `fp = 0`, `mid = 1` — the code computes
`FL = NST + 1 + fic_bytes + Σ mst_bytes = 97` (raw byte counts,
`src/receiver.cpp` lines 235-238), while the claim (and EN 300 799, which
the code itself cites, with FL an 11-bit count of 32-bit words) requires
`FL = NST + 1 + fic_len/4 + Σ subch_len/4 = 25`.  Bytes 6-7 of the
assembled frame carry the byte-count value: `08 61`, i.e. FL = 97. -/
theorem C8_fl_bytes_not_words :
    code_FL 0 96 [] = 97
    ∧ spec_FL 0 96 [] = 25
    ∧ code_FL 0 96 [] ≠ spec_FL 0 96 []
    ∧ (assemble_eti 0 fcEven fic96 [] 0 0).toOption.map (fun l => (l.drop 6).take 2)
        = some [0x08, 0x61]
    ∧ (0x08 % 8) * 256 + 0x61 = 97 := by
  decide

/-- C9 (amended).  `encode_zmq_frame` writes the frame to the ZMQ sink
exactly when `fp % 4` equals the expected next phase, then advances the
expected phase mod 4; a frame whose `fp % 4` deviates raises an error only
when the expected phase is nonzero (mid-group) — while the encoder is
waiting for the start of a group (expected phase 0), deviating frames are
silently discarded and the state is unchanged. -/
theorem C9_zmq_phase_gate (expected fp : Nat) :
    ((encode_zmq_frame expected fp).2 = ZmqAction.written ↔ fp % 4 = expected)
    ∧ ((encode_zmq_frame expected fp).2 = ZmqAction.error
        ↔ (fp % 4 ≠ expected ∧ expected ≠ 0))
    ∧ (fp % 4 = expected → (encode_zmq_frame expected fp).1 = (expected + 1) % 4)
    ∧ (fp % 4 ≠ expected → (encode_zmq_frame expected fp).1 = expected) := by
  unfold encode_zmq_frame
  split_ifs with h1 h2
  · exact ⟨by simp [h1], by simp [h1], fun _ => rfl, fun hne => absurd h1 hne⟩
  · exact ⟨by simp [h1], by simp [h1, h2], fun heq => absurd heq h1, fun _ => rfl⟩
  · exact ⟨by simp [h1], by simp [h1, h2], fun heq => absurd heq h1, fun _ => rfl⟩

/-- C9 witness: with expected phase 2, a frame with `fp = 2` is written and
the expected phase advances to 3. -/
theorem C9_zmq_phase_gate_witness :
    (encode_zmq_frame 2 2).1 = (2 + 1) % 4 :=
  (C9_zmq_phase_gate 2 2).2.2.1 (by decide)

/-- C9 counterexample: while the expected phase is 0 (start-of-group
alignment), a frame with `fp = 1` deviates from the expected phase but
raises no error — it is silently dropped, refuting "deviation raises an
error". -/
theorem C9_zmq_silent_drop_cex :
    1 % 4 ≠ 0
    ∧ (encode_zmq_frame 0 1).2 = ZmqAction.dropped
    ∧ (encode_zmq_frame 0 1).2 ≠ ZmqAction.error := by
  decide

/-- C10.  `backoff_milliseconds_remaining` never returns a positive value:
inside the backoff window it returns `now - inhibit_until`, which is
negative, and otherwise it returns 0; consequently the `in_backoff` field
of the `stats` reply, computed as `backoff_remain > 0`, is false in every
state. -/
theorem C10_backoff_never_positive (s : SenderState) (now : Int) :
    backoff_milliseconds_remaining s now ≤ 0
    ∧ (now < s.inhibitUntil → backoff_milliseconds_remaining s now = now - s.inhibitUntil)
    ∧ (¬ now < s.inhibitUntil → backoff_milliseconds_remaining s now = 0)
    ∧ stats_in_backoff s now = false := by
  unfold backoff_milliseconds_remaining stats_in_backoff
  unfold backoff_milliseconds_remaining
  split_ifs with h
  · refine ⟨by omega, fun _ => rfl, fun hn => absurd h hn, by simp; omega⟩
  · exact ⟨le_refl 0, fun hc => absurd hc h, fun _ => rfl, by simp⟩

/-- C10 witness: 400 ms into a 500 ms inhibit window the function returns
-400 (not a positive remainder) and the stats reply says `in_backoff:
false`. -/
theorem C10_backoff_never_positive_witness :
    backoff_milliseconds_remaining { initSender with inhibitUntil := 500 } 100 = 100 - 500
    ∧ stats_in_backoff { initSender with inhibitUntil := 500 } 100 = false :=
  ⟨(C10_backoff_never_positive { initSender with inhibitUntil := 500 } 100).2.1 (by decide),
   (C10_backoff_never_positive { initSender with inhibitUntil := 500 } 100).2.2.2⟩

end EdiBridge
